import Mathlib

/-!
Verification of the sweet-cookie cookie-extraction core: a shallow embedding
of the orchestrator (public.ts), the host-match and expiry utilities, the
Chromium value decryptor (providers/chromeSqlite/crypto.ts), the Linux
key-candidate dispatch (providers/chromeSqliteLinux.ts), the snapshot
discipline (providers/chromeSqlite/shared.js), the inline provider
(providers/inline.ts) and the Safari binary-cookie jar parser, together with
theorems settling the specified behavioural properties.

Modelling conventions: byte sequences are `List Nat` (each entry a byte
value); JavaScript strings appearing as cookie text are represented by their
UTF-8 byte lists or by Lean `String`s; JavaScript numbers are exact rationals
(`ℚ`); the external AES primitives from `node:crypto` are abstract function
parameters, with their inversion laws taken as hypotheses where a theorem
needs them.
-/

namespace SweetCookie

/-- Canonical cookie record (packages/core/src/types.ts `Cookie`).  The
`source` provenance field is omitted: none of the verified operations reads
it. -/
structure Cookie where
  name : String
  value : String
  domain : Option String := none
  path : Option String := none
  url : Option String := none
  expires : Option Int := none
  secure : Option Bool := none
  httpOnly : Option Bool := none
  sameSite : Option String := none
  deriving DecidableEq, Repr

/-- Provider result (packages/core/src/types.ts `GetCookiesResult`). -/
structure GetCookiesResult where
  cookies : List Cookie
  warnings : List String
  deriving DecidableEq, Repr

/-- The dedup identity key `name|domain|path` (public.ts `tryAdd`; JS
`cookie.domain ?? ''` / `cookie.path ?? ''`). -/
def cookieKey (c : Cookie) : String :=
  c.name ++ "|" ++ c.domain.getD "" ++ "|" ++ c.path.getD ""

/-- One insertion step of the orchestrator's merged `Map`: keep the existing
entry when the key is already present (first-seen-wins), otherwise append
(JS `Map` preserves insertion order). -/
def tryAdd (merged : List Cookie) (c : Cookie) : List Cookie :=
  if merged.any (fun d => cookieKey d == cookieKey c) then merged else merged ++ [c]

/-- `dedupeCookies` as in firefoxSqlite.ts / chromeSqlite/shared.js: fold the
cookie list through the first-seen-wins map. -/
def dedupeCookies (cookies : List Cookie) : List Cookie :=
  cookies.foldl tryAdd []

/-- The merge-mode provider loop of `getCookies` (public.ts): each provider's
result is visited in configured order, its warnings are appended, and its
cookies are inserted first-seen-wins keyed by `cookieKey`. -/
def getCookiesMerge (results : List GetCookiesResult) : GetCookiesResult :=
  { cookies := results.foldl (fun acc r => r.cookies.foldl tryAdd acc) []
    warnings := results.foldl (fun ws r => ws ++ r.warnings) [] }

/-- The first-mode provider loop of `getCookies` (public.ts): providers are
invoked in order; after each invocation its warnings are appended, and the
loop returns as soon as a provider yields at least one cookie.  The second
component counts how many providers were invoked, so that "subsequent
providers are not invoked" is expressible.  `results` lists what each
provider would return if invoked. -/
def getCookiesFirst (results : List GetCookiesResult) (warnAcc : List String) :
    GetCookiesResult × Nat :=
  match results with
  | [] => (⟨[], warnAcc⟩, 0)
  | r :: rest =>
    if r.cookies.isEmpty then
      let next := getCookiesFirst rest (warnAcc ++ r.warnings)
      (next.1, next.2 + 1)
    else (⟨r.cookies, warnAcc ++ r.warnings⟩, 1)

/-- JS `String.prototype.toLowerCase`, modelled by ASCII lowering (which
agrees with it on hostnames). -/
def jsToLower (s : String) : String := String.mk (s.data.map Char.toLower)

/-- JS `s.startsWith('.')`. -/
def jsStartsWithDot (s : String) : Bool :=
  match s.data with
  | c :: _ => c == '.'
  | [] => false

/-- JS `s.slice(1)`. -/
def jsDropFirst (s : String) : String := String.mk (s.data.drop 1)

/-- JS `s.endsWith(t)`. -/
def jsEndsWith (s t : String) : Bool :=
  decide (t.data.length ≤ s.data.length) &&
    (s.data.drop (s.data.length - t.data.length) == t.data)

/-- util/hostMatch.ts `hostMatchesCookieDomain`. -/
def hostMatchesCookieDomain (host cookieDomain : String) : Bool :=
  let normalizedHost := jsToLower host
  let normalizedDomain :=
    if jsStartsWithDot cookieDomain then jsDropFirst cookieDomain else cookieDomain
  let domainLower := jsToLower normalizedDomain
  normalizedHost == domainLower || jsEndsWith normalizedHost ("." ++ domainLower)

/-- JS `Math.round` on a finite number: the integer nearest to `q`, ties
rounding up. -/
def jsRound (q : ℚ) : Int := Int.floor (q + 1/2)

/-- util/expire.ts `normalizeExpiration` over exact rationals.  `!expires`
(the zero test) and `value <= 0` collapse into a single `expires ≤ 0` guard;
`NaN` and `undefined` inputs, which also return `undefined`, have no rational
representation and are outside the model. -/
def normalizeExpiration (expires : ℚ) : Option Int :=
  if expires ≤ 0 then none
  else if expires > 10000000000000 then some (jsRound (expires / 1000000 - 11644473600))
  else if expires > 10000000000 then some (jsRound (expires / 1000))
  else some (jsRound expires)

/-! ### Chromium value decryptor (providers/chromeSqlite/crypto.ts)

The raw AES primitives come from `node:crypto` and are abstracted as
function parameters; everything the repository itself implements — version
tag test, PKCS#7 unpadding, candidate loop, strict UTF-8 decode, hash strip
and control-character trim — is embedded concretely. -/

/-- The 3-byte version-tag test: `/^v\d\d$/` applied to
`buf.subarray(0, 3).toString('utf8')`.  Only the exact bytes `v` plus two
ASCII digits decode to a matching string. -/
def hasVersionTag (buf : List Nat) : Bool :=
  match buf with
  | b0 :: b1 :: b2 :: _ =>
    b0 == 118 && decide (48 ≤ b1 ∧ b1 ≤ 57) && decide (48 ≤ b2 ∧ b2 ≤ 57)
  | _ => false

/-- crypto.ts `removePkcs7Padding`: inspect the final byte; leave the value
untouched when it is 0 or exceeds 16, otherwise drop that many bytes. -/
def removePkcs7Padding (value : List Nat) : List Nat :=
  match value.getLast? with
  | none => value
  | some padding =>
    if padding == 0 || decide (padding > 16) then value
    else value.take (value.length - padding)

/-- PKCS#7 padding as the encrypting side applies it (the repository's tests
encrypt with `createCipheriv` and default auto-padding): pad to the next
16-byte boundary, always adding between 1 and 16 bytes whose value is the
pad length. -/
def pkcs7Pad (m : List Nat) : List Nat :=
  let p := 16 - m.length % 16
  m ++ List.replicate p p

/-- Strict UTF-8 validity, mirroring `new TextDecoder('utf-8', {fatal: true})`:
rejects stray continuations, overlong forms, surrogates and values above
U+10FFFF. -/
def isValidUtf8 : List Nat → Bool
  | [] => true
  | b :: rest =>
    if b < 128 then isValidUtf8 rest
    else if 194 ≤ b ∧ b ≤ 223 then
      match rest with
      | c1 :: rest2 => decide (128 ≤ c1 ∧ c1 ≤ 191) && isValidUtf8 rest2
      | [] => false
    else if 224 ≤ b ∧ b ≤ 239 then
      match rest with
      | c1 :: c2 :: rest3 =>
        (if b == 224 then decide (160 ≤ c1 ∧ c1 ≤ 191)
         else if b == 237 then decide (128 ≤ c1 ∧ c1 ≤ 159)
         else decide (128 ≤ c1 ∧ c1 ≤ 191)) &&
        decide (128 ≤ c2 ∧ c2 ≤ 191) && isValidUtf8 rest3
      | _ => false
    else if 240 ≤ b ∧ b ≤ 244 then
      match rest with
      | c1 :: c2 :: c3 :: rest4 =>
        (if b == 240 then decide (144 ≤ c1 ∧ c1 ≤ 191)
         else if b == 244 then decide (128 ≤ c1 ∧ c1 ≤ 143)
         else decide (128 ≤ c1 ∧ c1 ≤ 191)) &&
        decide (128 ≤ c2 ∧ c2 ≤ 191) && decide (128 ≤ c3 ∧ c3 ≤ 191) &&
        isValidUtf8 rest4
      | _ => false
    else false

/-- crypto.ts `stripLeadingControlChars`; on a string decoded from valid
UTF-8 the leading characters with code below 0x20 are exactly the leading
bytes below 0x20, so the byte-level drop is faithful. -/
def stripLeadingControlChars (value : List Nat) : List Nat :=
  value.dropWhile (fun b => decide (b < 32))

/-- crypto.ts `decodeCookieValueBytes`: optionally drop a 32-byte hash, then
strictly UTF-8 decode (`none` models the decoder throwing) and trim leading
control characters.  The decoded string is represented by its bytes. -/
def decodeCookieValueBytes (value : List Nat) (stripHash : Bool) : Option (List Nat) :=
  let bytes := if stripHash && decide (32 ≤ value.length) then value.drop 32 else value
  if isValidUtf8 bytes then some (stripLeadingControlChars bytes) else none

/-- crypto.ts `tryDecryptAes128Cbc` with the raw cipher abstracted: the
`createDecipheriv` pipeline with auto-padding off throws (yielding `null`)
unless the ciphertext length is a whole number of 16-byte blocks, and
otherwise produces the raw decryption, manually unpadded. -/
def tryDecryptAes128Cbc (aesDec : List Nat → List Nat) (ciphertext : List Nat) :
    Option (List Nat) :=
  if ciphertext.length % 16 == 0 then some (removePkcs7Padding (aesDec ciphertext))
  else none

/-- The candidate loop body of `decryptChromiumAes128CbcCookieValue`: try each
key in order; move on when the cipher fails or the plaintext does not decode,
return the first successful decode. -/
def tryKeyCandidates {κ : Type} (aesDec : κ → List Nat → List Nat)
    (ciphertext : List Nat) (stripHash : Bool) : List κ → Option (List Nat)
  | [] => none
  | key :: rest =>
    match tryDecryptAes128Cbc (aesDec key) ciphertext with
    | none => tryKeyCandidates aesDec ciphertext stripHash rest
    | some decrypted =>
      match decodeCookieValueBytes decrypted stripHash with
      | some decoded => some decoded
      | none => tryKeyCandidates aesDec ciphertext stripHash rest

/-- crypto.ts `decryptChromiumAes128CbcCookieValue`.  `aesDec key` is the raw
AES-128-CBC decryption under `key` with the fixed all-0x20 IV;
`treatUnknownTagAsPlaintext` is `options.treatUnknownPrefixAsPlaintext`
(absent defaults to plaintext fallback, only an explicit `false` disables
it). -/
def decryptChromiumAes128CbcCookieValue {κ : Type}
    (aesDec : κ → List Nat → List Nat) (encryptedValue : List Nat)
    (keyCandidates : List κ) (stripHash treatUnknownTagAsPlaintext : Bool) :
    Option (List Nat) :=
  if encryptedValue.length < 3 then none
  else if !hasVersionTag encryptedValue then
    if treatUnknownTagAsPlaintext == false then none
    else decodeCookieValueBytes encryptedValue false
  else
    let ciphertext := encryptedValue.drop 3
    if ciphertext.isEmpty then some []
    else tryKeyCandidates aesDec ciphertext stripHash keyCandidates

/-- crypto.ts `decryptChromiumAes256GcmCookieValue`.  `gcmDec nonce ct tag`
is `node:crypto`'s authenticated decryption under the (fixed) key; `none`
models an authentication failure throwing. -/
def decryptChromiumAes256GcmCookieValue
    (gcmDec : List Nat → List Nat → List Nat → Option (List Nat))
    (encryptedValue : List Nat) (stripHash : Bool) : Option (List Nat) :=
  if encryptedValue.length < 3 then none
  else if !hasVersionTag encryptedValue then none
  else
    let payload := encryptedValue.drop 3
    if payload.length < 28 then none
    else
      let nonce := payload.take 12
      let authTag := payload.drop (payload.length - 16)
      let ciphertext := (payload.drop 12).take (payload.length - 28)
      match gcmDec nonce ciphertext authTag with
      | none => none
      | some plaintext => decodeCookieValueBytes plaintext stripHash

/-- The AES-128-CBC cookie encryption scheme as the repository's tests build
it: version tag, then CBC encryption (abstract `aesEnc`) of the
PKCS#7-padded plaintext. -/
def encryptChromiumAes128Cbc (aesEnc : List Nat → List Nat) (tag plaintext : List Nat) :
    List Nat :=
  tag ++ aesEnc (pkcs7Pad plaintext)

/-- The AES-256-GCM cookie encryption scheme as the repository's tests build
it: version tag, 12-byte nonce, ciphertext, 16-byte auth tag.  `gcmEnc nonce
plaintext` yields the (ciphertext, auth tag) pair. -/
def encryptChromiumAes256Gcm (gcmEnc : List Nat → List Nat → List Nat × List Nat)
    (tag nonce plaintext : List Nat) : List Nat :=
  tag ++ nonce ++ (gcmEnc nonce plaintext).1 ++ (gcmEnc nonce plaintext).2

/-- crypto.ts `deriveAes128CbcKeyFromPassword`: PBKDF2-SHA1 with the fixed
salt `saltysalt` and 16-byte output, kept abstract as the (password,
iteration-count) pair that determines the derived key. -/
structure DerivedKey where
  password : String
  iterations : Nat
  deriving DecidableEq, Repr

def deriveAes128CbcKeyFromPassword (password : String) (iterations : Nat) : DerivedKey :=
  ⟨password, iterations⟩

/-! ### Linux Chromium provider key dispatch (providers/chromeSqliteLinux.ts) -/

/-- Bytes of the `v10` tag. -/
def vTag10 : List Nat := [118, 49, 48]

/-- Bytes of the `v11` tag. -/
def vTag11 : List Nat := [118, 49, 49]

/-- The candidate-key list the Linux provider passes to
`decryptChromiumAes128CbcCookieValue` for a given encrypted value: the
`decrypt` closure of `getCookiesFromChromeSqliteLinux` branches on the 3-byte
tag, using `[v10Key, emptyKey]` for `v10`, `[v11Key, emptyKey]` for `v11`,
and attempting no decryption otherwise.  `password` is the keyring-backed
safe-storage password. -/
def linuxKeyCandidates (password : String) (encryptedValue : List Nat) :
    List DerivedKey :=
  if encryptedValue.take 3 == vTag10 then
    [deriveAes128CbcKeyFromPassword "peanuts" 1, deriveAes128CbcKeyFromPassword "" 1]
  else if encryptedValue.take 3 == vTag11 then
    [deriveAes128CbcKeyFromPassword password 1, deriveAes128CbcKeyFromPassword "" 1]
  else []

/-- The `decrypt` closure of `getCookiesFromChromeSqliteLinux` itself, with
the raw cipher abstracted over `DerivedKey`. -/
def linuxDecrypt (aesDec : DerivedKey → List Nat → List Nat) (password : String)
    (encryptedValue : List Nat) (stripHash : Bool) : Option (List Nat) :=
  if encryptedValue.take 3 == vTag10 then
    decryptChromiumAes128CbcCookieValue aesDec encryptedValue
      [deriveAes128CbcKeyFromPassword "peanuts" 1, deriveAes128CbcKeyFromPassword "" 1]
      stripHash false
  else if encryptedValue.take 3 == vTag11 then
    decryptChromiumAes128CbcCookieValue aesDec encryptedValue
      [deriveAes128CbcKeyFromPassword password 1, deriveAes128CbcKeyFromPassword "" 1]
      stripHash false
  else none

/-! ### Inline provider (providers/inline.ts)

The payload string passes through an optional file read and an optional
base64 decode (both external I/O heuristics) before `JSON.parse`; the model
starts at the `JSON.parse` result, `none` standing for a parse exception
(including the empty trimmed input, which short-circuits before parsing).
The parsed cookies are pushed verbatim — the code casts, it does not
convert — so the inline result carries raw JSON values. -/

/-- Dynamic JSON value, the image of `JSON.parse`. -/
inductive JsonValue where
  | null
  | bool (b : Bool)
  | num (q : ℚ)
  | str (s : String)
  | arr (items : List JsonValue)
  | obj (fields : List (String × JsonValue))
  deriving Repr

/-- Field lookup on a parsed JSON object (objects produced by `JSON.parse`
have unique keys). -/
def jsonMember (fields : List (String × JsonValue)) (k : String) : Option JsonValue :=
  (fields.find? (fun p => p.1 == k)).map (·.2)

/-- JS property access `v.k` for the field names the inline provider uses:
defined on objects, `undefined` (`none`) on every other value. -/
def jsGetField : JsonValue → String → Option JsonValue
  | .obj fields, k => jsonMember fields k
  | _, _ => none

/-- JS truthiness of a parsed JSON value. -/
def jsTruthy : JsonValue → Bool
  | .null => false
  | .bool b => b
  | .num q => q != 0
  | .str s => s != ""
  | .arr _ => true
  | .obj _ => true

/-- inline.ts `tryParseCookiePayload`, from the `JSON.parse` stage on: a JSON
array is the cookie list; an object exposes its `cookies` array field; every
other shape (and a parse failure) yields `null`. -/
def tryParseCookiePayload : Option JsonValue → Option (List JsonValue)
  | some (.arr items) => some items
  | some (.obj fields) =>
    match jsonMember fields "cookies" with
    | some (.arr items) => some items
    | _ => none
  | _ => none

/-- The inline provider's result: the kept raw cookie objects plus warnings. -/
structure InlineResult where
  cookies : List JsonValue
  warnings : List String
  deriving Repr

/-- The per-cookie filter in the `getCookiesFromInline` loop.  `hostnameOf`
models `new URL(u).hostname` (`none` when the constructor would throw).
Returns `some cookie` when the entry is pushed, `none` when it is skipped,
and `.error` when the code would throw a TypeError (host matching reached
with a non-string `domain` value). -/
def inlineConsider (hostnameOf : String → Option String) (hostAllow : List String)
    (allowlistNames : Option (List String)) (cookie : JsonValue) :
    Except String (Option JsonValue) :=
  match jsGetField cookie "name" with
  | none => .ok none
  | some nameVal =>
    if !jsTruthy nameVal then .ok none
    else
      let allowSkip :=
        match allowlistNames with
        | some ns =>
          !ns.isEmpty && !(match nameVal with | .str s => ns.contains s | _ => false)
        | none => false
      if allowSkip then .ok none
      else
        let urlFallback : Option JsonValue :=
          match jsGetField cookie "url" with
          | some u =>
            if jsTruthy u then
              match u with
              | .str s => (hostnameOf s).map .str
              | _ => none  -- `new URL(nonString)` throws inside the guarded helper
            else none
          | none => none
        let domainVal : Option JsonValue :=
          match jsGetField cookie "domain" with
          | some .null => urlFallback
          | some v => some v
          | none => urlFallback
        match domainVal with
        | none => .ok (some cookie)
        | some d =>
          if !jsTruthy d then .ok (some cookie)
          else if hostAllow.isEmpty then .ok (some cookie)
          else
            match d with
            | .str s =>
              if hostAllow.any (fun h => hostMatchesCookieDomain h s) then .ok (some cookie)
              else .ok none
            | _ => .error "TypeError: cookieDomain.startsWith is not a function"

/-- The cookie-collection loop of `getCookiesFromInline`. -/
def inlineCollect (hostnameOf : String → Option String) (hostAllow : List String)
    (allowlistNames : Option (List String)) : List JsonValue →
    Except String (List JsonValue)
  | [] => .ok []
  | c :: rest => do
    let kept ← inlineConsider hostnameOf hostAllow allowlistNames c
    let more ← inlineCollect hostnameOf hostAllow allowlistNames rest
    match kept with
    | some v => pure (v :: more)
    | none => pure more

/-- inline.ts `getCookiesFromInline`, from the `JSON.parse` stage on.  The
`warnings` array is allocated empty and the function never pushes to it.  A
`.error` result models an exception escaping the provider. -/
def getCookiesFromInline (hostnameOf : String → Option String)
    (parsed : Option JsonValue) (origins : List String)
    (allowlistNames : Option (List String)) : Except String InlineResult :=
  match tryParseCookiePayload parsed with
  | none => .ok ⟨[], []⟩
  | some items =>
    match origins.mapM hostnameOf with
    | none => .error "TypeError: invalid URL among origins"
    | some hostAllow =>
      (inlineCollect hostnameOf hostAllow allowlistNames items).map
        (fun cookies => ⟨cookies, []⟩)

/-! ### Firefox provider boundary (providers/firefoxSqlite.ts) -/

/-- The profile-resolution boundary of `getCookiesFromFirefox`: when no
cookies database is located, the provider returns normally with no cookies
and one warning; otherwise the query pipeline (external I/O, abstracted as
`runWithDb`) takes over. -/
def getCookiesFromFirefoxGuard (dbPath : Option String)
    (runWithDb : String → GetCookiesResult) : GetCookiesResult :=
  match dbPath with
  | none => ⟨[], ["Firefox cookies database not found."]⟩
  | some p => runWithDb p

/-! ### Chromium sqlite snapshot discipline (chromeSqlite/shared.js) -/

/-- The `encrypted_value` column as the row collector sees it. -/
inductive ChromeEncryptedValue where
  | absent
  | unsupported
  | bytes (value : List Nat)
  deriving DecidableEq, Repr

/-- One raw row of the Chromium `cookies` table, decoded defensively:
non-string text columns model to `none`; `expiresUtc` holds the numeric
value of `expires_utc` (number, or numeric string after `parseInt`);
`sameSite` holds the numeric `samesite` code (the historical string-typed
column re-enters the numeric path; no verified property reads the result). -/
structure ChromeRow where
  name : Option String := none
  value : Option String := none
  hostKey : Option String := none
  path : Option String := none
  expiresUtc : Option ℚ := none
  isSecure : Bool := false
  isHttpOnly : Bool := false
  sameSite : Option ℚ := none
  encryptedValue : ChromeEncryptedValue := .absent
  deriving Repr

/-- shared.js `hostMatchesAny` (also in firefoxSqlite.ts): strip one leading
dot from the stored host, then match against any requested host. -/
def hostMatchesAny (hosts : List String) (cookieHost : String) : Bool :=
  let cookieDomain := if jsStartsWithDot cookieHost then jsDropFirst cookieHost else cookieHost
  hosts.any (fun host => hostMatchesCookieDomain host cookieDomain)

/-- shared.js `normalizeChromiumSameSite` on the numeric path. -/
def normalizeChromiumSameSite (value : Option ℚ) : Option String :=
  match value with
  | some q => if q = 2 then some "Strict" else if q = 1 then some "Lax"
              else if q = 0 then some "None" else none
  | none => none

/-- State threaded through `collectChromeCookiesFromRows`: collected cookies,
warnings pushed so far, and the once-only unsupported-type warning flag. -/
structure ChromeCollectState where
  cookies : List Cookie
  warnings : List String
  warnedEncryptedType : Bool
  deriving Repr

/-- One iteration of the `collectChromeCookiesFromRows` row loop.  `decrypt`
is the provider callback (already specialised to the hash-strip decision);
`none` models a per-row decrypt failure, which only drops the row. -/
def collectChromeRow (includeExpired : Bool) (hosts : List String)
    (allowlistNames : Option (List String)) (decrypt : List Nat → Option String)
    (now : Int) (st : ChromeCollectState) (row : ChromeRow) : ChromeCollectState :=
  match row.name with
  | none => st
  | some name =>
    let allowSkip :=
      match allowlistNames with
      | some ns => !ns.isEmpty && !ns.contains name
      | none => false
    if allowSkip then st
    else
      match row.hostKey with
      | none => st
      | some hostKey =>
        if !hostMatchesAny hosts hostKey then st
        else
          let rowPath := (row.path).getD ""
          let valueAttempt : Option String :=
            match row.value with
            | some v => if v == "" then none else some v
            | none => none
          match valueAttempt, row.encryptedValue with
          | none, .absent => st
          | none, .unsupported =>
            if st.warnedEncryptedType then st
            else { st with
                   warnings :=
                     st.warnings ++ ["Chrome cookie encrypted_value is in an unsupported type."]
                   warnedEncryptedType := true }
          | none, .bytes enc =>
            match decrypt enc with
            | none => st
            | some value => collectChromeRowTail includeExpired now st row name hostKey rowPath value
          | some value, _ => collectChromeRowTail includeExpired now st row name hostKey rowPath value
where
  /-- The tail of the loop body, once a plaintext value is in hand. -/
  collectChromeRowTail (includeExpired : Bool) (now : Int) (st : ChromeCollectState)
      (row : ChromeRow) (name hostKey rowPath value : String) : ChromeCollectState :=
    let expires := (row.expiresUtc).bind (fun q => normalizeExpiration q)
    let expiredSkip :=
      !includeExpired &&
        (match expires with
         | some e => decide (e ≠ 0) && decide (e < now)
         | none => false)
    if expiredSkip then st
    else
      let cookie : Cookie :=
        { name := name
          value := value
          domain := some (if jsStartsWithDot hostKey then jsDropFirst hostKey else hostKey)
          path := some (if rowPath == "" then "/" else rowPath)
          secure := some row.isSecure
          httpOnly := some row.isHttpOnly
          expires := expires
          sameSite := normalizeChromiumSameSite row.sameSite }
      { st with cookies := st.cookies ++ [cookie] }

/-- shared.js `getCookiesFromChromeSqliteDb`, with the effects made explicit:
`copyResult` is the outcome of copying the store into the freshly created
snapshot directory (sidecar copy failures are swallowed by the source),
`metaVersion` the total `readChromiumMetaVersion` result (0 on any failure),
`rowsResult` the `readChromeRows` outcome after both schema variants.  The
second component of the result records whether the temporary snapshot
directory has been removed when the call exits; the `finally` block performs
the removal on the success, decrypt-failure and query-failure paths, and the
copy-failure handler removes it before returning.  (An exception thrown
inside the `try` — e.g. an unparsable origin URL — would still pass the
`finally`, so removal also holds on that path.) -/
def getCookiesFromChromeSqliteDb
    (copyResult : Except String Unit) (metaVersion : Int)
    (rowsResult : Except String (List ChromeRow))
    (includeExpired : Bool) (hosts : List String)
    (allowlistNames : Option (List String))
    (decrypt : Bool → List Nat → Option String) (now : Int) :
    GetCookiesResult × Bool :=
  match copyResult with
  | .error e => (⟨[], ["Failed to copy Chrome cookie DB: " ++ e]⟩, true)
  | .ok _ =>
    let stripHash := decide (24 ≤ metaVersion)
    match rowsResult with
    | .error e => (⟨[], [e]⟩, true)
    | .ok rows =>
      let st := rows.foldl
        (collectChromeRow includeExpired hosts allowlistNames (decrypt stripHash) now)
        ⟨[], [], false⟩
      (⟨dedupeCookies st.cookies, st.warnings⟩, true)

/-! ### Safari binary cookie jar parser

Modelled from the spec: the implementation file
`providers/safariBinaryCookies.ts` is not among the provided sources (only
its tests are), so the parser below reconstructs §4.3 of the specification
— 8-byte file header (`cook` magic + big-endian page count), big-endian page
sizes, per-page big-endian start magic `0x00000100`, little-endian record
count and offsets, fixed-layout records with flag bits (bit 0 secure, bit 2
httpOnly), NUL-terminated field strings at record-relative offsets, and a
little-endian 8-byte float expiry in Mac-epoch seconds (+978307200 to Unix)
— with every malformed component rejected by skipping, never by throwing.
The concrete byte layout follows tests/safariBinaryCookies.test.ts. -/

/-- Little-endian 32-bit read at `off`; `none` past the end of the buffer. -/
def readU32LE (b : List Nat) (off : Nat) : Option Nat :=
  match b[off]?, b[off+1]?, b[off+2]?, b[off+3]? with
  | some x0, some x1, some x2, some x3 =>
    some (x0 + 256 * x1 + 65536 * x2 + 16777216 * x3)
  | _, _, _, _ => none

/-- Big-endian 32-bit read at `off`. -/
def readU32BE (b : List Nat) (off : Nat) : Option Nat :=
  match b[off]?, b[off+1]?, b[off+2]?, b[off+3]? with
  | some x0, some x1, some x2, some x3 =>
    some (x3 + 256 * x2 + 65536 * x1 + 16777216 * x0)
  | _, _, _, _ => none

/-- Little-endian 64-bit read at `off` (raw bits). -/
def readU64LE (b : List Nat) (off : Nat) : Option Nat :=
  match readU32LE b off, readU32LE b (off+4) with
  | some lo, some hi => some (lo + 4294967296 * hi)
  | _, _ => none

/-- Exact rational value of an IEEE-754 double from its 64 raw bits; `none`
for NaN and the infinities. -/
def float64BitsToRat (bits : Nat) : Option ℚ :=
  let sign : Nat := bits / 2 ^ 63
  let expo : Nat := bits / 2 ^ 52 % 2 ^ 11
  let mant : Nat := bits % 2 ^ 52
  if expo == 2047 then none
  else
    let mag : ℚ :=
      if expo == 0 then (mant : ℚ) / 2 ^ 1074
      else ((2 ^ 52 + mant : ℕ) : ℚ) * 2 ^ expo / 2 ^ 1075
    some (if sign == 1 then -mag else mag)

/-- Bytes up to (excluding) the first NUL; `none` when no NUL terminator is
present. -/
def takeCString : List Nat → Option (List Nat)
  | [] => none
  | 0 :: _ => some []
  | c :: rest => (takeCString rest).map (c :: ·)

/-- NUL-terminated string starting at `off`, terminated strictly before
`limit`; `none` when the offset is at or past the limit or unterminated. -/
def readCString (b : List Nat) (off limit : Nat) : Option String :=
  if limit ≤ off then none
  else (takeCString ((b.take limit).drop off)).map
    (fun cs => String.mk (cs.map Char.ofNat))

/-- The characters after the first `://`, when one occurs. -/
def findSchemeRest : List Char → Option (List Char)
  | ':' :: '/' :: '/' :: rest => some rest
  | _ :: rest => findSchemeRest rest
  | [] => none

/-- Characters up to (excluding) the first `/`. -/
def charsUntilSlash : List Char → List Char
  | [] => []
  | '/' :: _ => []
  | c :: rest => c :: charsUntilSlash rest

/-- Hostname of a cookie-record URL (spec-modelled: scheme stripped, then up
to the first slash). -/
def hostnameFromUrl (url : String) : String :=
  String.mk (charsUntilSlash ((findSchemeRest url.data).getD url.data))

/-- A cookie decoded from the binary jar (values are stored in the clear). -/
structure JarCookie where
  domain : String
  name : String
  path : String
  value : String
  secure : Bool
  httpOnly : Bool
  expires : Option ℚ
  deriving DecidableEq, Repr

/-- Parse one fixed-layout record at byte offset `off` of a page: u32le total
size at +0, u32le flags at +8, u32le record-relative offsets for
url/name/path/value at +16/+20/+24/+28, f64le Mac-epoch expiry at +40,
NUL-terminated strings inside the record.  Rejected (`none`): size below the
48-byte fixed header, size past the page end, any nonzero field offset
outside the record, a missing URL field (offset 0 — undecodable domain), or
an unterminated string. -/
def parseSafariRecord (page : List Nat) (off : Nat) : Option JarCookie :=
  match readU32LE page off with
  | none => none
  | some size =>
    if size < 48 ∨ page.length < off + size then none
    else
      match readU32LE page (off+8), readU32LE page (off+16), readU32LE page (off+20),
            readU32LE page (off+24), readU32LE page (off+28), readU64LE page (off+40) with
      | some flags, some urlOff, some nameOff, some pathOff, some valueOff,
        some expiryBits =>
        if urlOff == 0 ∨ size ≤ urlOff then none
        else if (nameOff ≠ 0 ∧ size ≤ nameOff) ∨ (pathOff ≠ 0 ∧ size ≤ pathOff) ∨
                (valueOff ≠ 0 ∧ size ≤ valueOff) then none
        else
          match readCString page (off + urlOff) (off + size) with
          | none => none
          | some url =>
            let fieldAt : Nat → Option String := fun o =>
              if o == 0 then some "" else readCString page (off + o) (off + size)
            match fieldAt nameOff, fieldAt pathOff, fieldAt valueOff with
            | some name, some path, some value =>
              some { domain := hostnameFromUrl url
                     name := name, path := path, value := value
                     secure := flags % 2 == 1
                     httpOnly := flags / 4 % 2 == 1
                     expires := (float64BitsToRat expiryBits).map (· + 978307200) }
            | _, _, _ => none
      | _, _, _, _, _, _ => none

/-- Parse one page: big-endian start magic `0x00000100` at +0, little-endian
record count at +4, little-endian record offsets from +8.  A bad magic, an
unreadable header or offset, and every rejected record contribute no
cookies. -/
def parseSafariPage (page : List Nat) : List JarCookie :=
  match readU32BE page 0, readU32LE page 4 with
  | some magic, some count =>
    if magic ≠ 256 then []
    else
      (List.range count).filterMap (fun i =>
        (readU32LE page (8 + 4 * i)).bind (fun off => parseSafariRecord page off))
  | _, _ => []

/-- Parse a whole `Cookies.binarycookies` buffer: `cook` magic, big-endian
page count at +4, big-endian page sizes from +8, then the pages in order by
their declared sizes.  A bad file magic or truncated size table yields no
cookies; a page whose declared extent runs past the buffer is skipped. -/
def parseBinaryCookies (bytes : List Nat) : List JarCookie :=
  if bytes.take 4 ≠ [99, 111, 111, 107] then []
  else
    match readU32BE bytes 4 with
    | none => []
    | some pageCount =>
      match (List.range pageCount).mapM (fun i => readU32BE bytes (8 + 4 * i)) with
      | none => []
      | some sizes =>
        let tableEnd := 8 + 4 * pageCount
        (sizes.foldl
          (fun (acc : List JarCookie × Nat) size =>
            let start := acc.2
            let pageCookies :=
              if bytes.length < start + size then []
              else parseSafariPage ((bytes.drop start).take size)
            (acc.1 ++ pageCookies, start + size))
          ([], tableEnd)).1

/-- Modelled from the spec: the `getCookiesFromSafari` provider wrapper —
on a read failure a warning and no cookies; otherwise the parsed jar
filtered by requested hosts, name allowlist, and expiry (expired cookies
dropped unless `includeExpired`). -/
def getCookiesFromSafari (fileBytes : Option (List Nat)) (includeExpired : Bool)
    (originHosts : List String) (allowlistNames : Option (List String)) (now : ℚ) :
    List JarCookie × List String :=
  match fileBytes with
  | none => ([], ["Failed to read Safari cookies file."])
  | some bytes =>
    let cookies := (parseBinaryCookies bytes).filter (fun c =>
      (match allowlistNames with
       | some ns => ns.isEmpty || ns.contains c.name
       | none => true) &&
      originHosts.any (fun h => hostMatchesCookieDomain h c.domain) &&
      (includeExpired ||
        !(match c.expires with
          | some e => decide (e ≠ 0) && decide (e < now)
          | none => false)))
    (cookies, [])

/-! ### Concrete binary-jar inputs

Byte buffers mirroring the malformed fixtures of
tests/safariBinaryCookies.test.ts (plus one well-formed single-record file,
used to show the parser is not vacuously empty). -/

/-- Little-endian byte encoding of a 32-bit value. -/
def u32le (n : Nat) : List Nat := [n % 256, n / 256 % 256, n / 65536 % 256, n / 16777216 % 256]

/-- Big-endian byte encoding of a 32-bit value. -/
def u32be (n : Nat) : List Nat := (u32le n).reverse

/-- UTF-16 code units of an ASCII string as bytes. -/
def asciiBytes (s : String) : List Nat := s.data.map Char.toNat

/-- A well-formed 96-byte record: flags 5 (secure + httpOnly), URL
`https://chatgpt.com/` at +56, name `sid` at +80, path `/` at +84, value
`value` at +86, expiry 100.0 Mac-epoch seconds (bits `0x4059000000000000`). -/
def jarValidRecord : List Nat :=
  u32le 96 ++ u32le 0 ++ u32le 5 ++ u32le 0 ++
  u32le 56 ++ u32le 80 ++ u32le 84 ++ u32le 86 ++
  List.replicate 8 0 ++
  [0, 0, 0, 0, 0, 0, 89, 64] ++
  List.replicate 8 0 ++
  (asciiBytes "https://chatgpt.com/" ++ [0]) ++ List.replicate 3 0 ++
  (asciiBytes "sid" ++ [0]) ++
  (asciiBytes "/" ++ [0]) ++
  (asciiBytes "value" ++ [0]) ++
  List.replicate 4 0

/-- A well-formed one-page, one-record cookie jar. -/
def jarValidFile : List Nat :=
  [99, 111, 111, 107] ++ u32be 1 ++ u32be 112 ++
  (u32be 256 ++ u32le 1 ++ u32le 16 ++ List.replicate 4 0 ++ jarValidRecord)

/-- A record whose URL field offset (200) lies outside its declared 96-byte
extent, inside an otherwise well-formed page. -/
def jarOutOfBoundsOffsetFile : List Nat :=
  [99, 111, 111, 107] ++ u32be 1 ++ u32be 112 ++
  (u32be 256 ++ u32le 1 ++ u32le 16 ++ List.replicate 4 0 ++
    (u32le 96 ++ u32le 0 ++ u32le 5 ++ u32le 0 ++
     u32le 200 ++ u32le 80 ++ u32le 84 ++ u32le 86 ++ List.replicate 64 0))

/-- A file whose header declares a 64-byte page of which only 16 bytes are
present. -/
def jarTruncatedPageFile : List Nat :=
  [99, 111, 111, 107] ++ u32be 1 ++ u32be 64 ++
  (u32be 256 ++ u32le 1 ++ u32le 16 ++ List.replicate 4 0)

/-- A page declaring zero records. -/
def jarZeroRecordPageFile : List Nat :=
  [99, 111, 111, 107] ++ u32be 1 ++ u32be 16 ++
  (u32be 256 ++ u32le 0 ++ List.replicate 8 0)

/-- A page whose start magic is 0 instead of `0x00000100`. -/
def jarBadPageMagicFile : List Nat :=
  [99, 111, 111, 107] ++ u32be 1 ++ u32be 16 ++ List.replicate 16 0

/-! ## Theorems -/

set_option maxRecDepth 100000

/-- Supporting fact (parser non-vacuity): the well-formed single-record jar
parses to exactly one cookie with domain `chatgpt.com`, name `sid`, path
`/`, value `value`, secure and httpOnly set.  (The rational expiry field is
not compared here because `Rat` arithmetic is not kernel-reducible; the
decoded bits `0x4059000000000000` denote 100.0 Mac-epoch seconds.) -/
theorem parseBinaryCookies_valid_file :
    (parseBinaryCookies jarValidFile).map
        (fun c => (c.domain, c.name, c.path, c.value, c.secure, c.httpOnly)) =
      [("chatgpt.com", "sid", "/", "value", true, true)] := by
  decide

/-- C9: each of the four malformed binary-jar shapes — an out-of-bounds field
offset, a truncated page, a zero-record page, and a bad page-start magic —
yields zero cookies from the (spec-modelled, total) `getCookiesFromSafari`,
returning normally rather than throwing. -/
theorem claim_C9_jar_malformed_graceful :
    (getCookiesFromSafari (some jarOutOfBoundsOffsetFile) true ["chatgpt.com"] none 0).1 = [] ∧
    (getCookiesFromSafari (some jarTruncatedPageFile) true ["chatgpt.com"] none 0).1 = [] ∧
    (getCookiesFromSafari (some jarZeroRecordPageFile) true ["chatgpt.com"] none 0).1 = [] ∧
    (getCookiesFromSafari (some jarBadPageMagicFile) true ["chatgpt.com"] none 0).1 = [] := by
  exact ⟨rfl, rfl, rfl, rfl⟩

/-- C8: a store entry with cookie domain `.example.com` matches the requested
hosts `app.example.com` and `example.com`, while a store entry `evil.com`
does not match the requested host `example.com`. -/
theorem claim_C8_host_matching :
    hostMatchesCookieDomain "app.example.com" ".example.com" = true ∧
    hostMatchesCookieDomain "example.com" ".example.com" = true ∧
    hostMatchesCookieDomain "example.com" "evil.com" = false := by
  exact ⟨by decide, by decide, by decide⟩

/-- C10: an encrypted value that is exactly a version tag (`v` plus two ASCII
digits) with no ciphertext bytes decrypts to the empty string, for every
candidate list (including the empty one), every cipher, and both option
flags. -/
theorem claim_C10_bare_version_tag {κ : Type} (aesDec : κ → List Nat → List Nat)
    (keyCandidates : List κ) (stripHash treatUnknownTagAsPlaintext : Bool)
    (d1 d2 : Nat) (h1 : 48 ≤ d1) (h2 : d1 ≤ 57) (h3 : 48 ≤ d2) (h4 : d2 ≤ 57) :
    decryptChromiumAes128CbcCookieValue aesDec [118, d1, d2] keyCandidates
      stripHash treatUnknownTagAsPlaintext = some [] := by
  have htag : hasVersionTag [118, d1, d2] = true := by
    simp [hasVersionTag]
    omega
  simp [decryptChromiumAes128CbcCookieValue, htag]

/-- Witness for C10 at the concrete value `v10` with no candidates. -/
theorem claim_C10_witness :
    decryptChromiumAes128CbcCookieValue (fun (_ : Unit) v => v) [118, 49, 48] []
      false false = some [] :=
  claim_C10_bare_version_tag (fun (_ : Unit) v => v) [] false false 49 48
    (by decide) (by decide) (by decide) (by decide)

/-- C6: the Chromium sqlite provider's temporary snapshot directory is
removed on every exit path — copy failure, query failure, and success
(per-row decrypt failures stay on the success path) — for every combination
of effect outcomes. -/
theorem claim_C6_snapshot_always_removed (copyResult : Except String Unit)
    (metaVersion : Int) (rowsResult : Except String (List ChromeRow))
    (includeExpired : Bool) (hosts : List String)
    (allowlistNames : Option (List String))
    (decrypt : Bool → List Nat → Option String) (now : Int) :
    (getCookiesFromChromeSqliteDb copyResult metaVersion rowsResult includeExpired
      hosts allowlistNames decrypt now).2 = true := by
  cases copyResult with
  | error e => rfl
  | ok u =>
    cases rowsResult with
    | error e => rfl
    | ok rows => rfl

/-- C7 (amended): on the Linux Chromium path the candidate keys are
determined by the value's version tag — a `v10` value tries the
peanuts-derived key then the empty-password key (the keyring key is never
tried for it), a `v11` value tries the keyring-derived key then the
empty-password key (the peanuts key is never tried for it), and any other
value is not decrypted at all. -/
theorem claim_C7_linux_key_order_amended (password : String) (v : List Nat) :
    (v.take 3 = vTag10 →
      linuxKeyCandidates password v =
        [deriveAes128CbcKeyFromPassword "peanuts" 1,
         deriveAes128CbcKeyFromPassword "" 1]) ∧
    (v.take 3 = vTag11 →
      linuxKeyCandidates password v =
        [deriveAes128CbcKeyFromPassword password 1,
         deriveAes128CbcKeyFromPassword "" 1]) ∧
    (v.take 3 ≠ vTag10 → v.take 3 ≠ vTag11 → linuxKeyCandidates password v = []) := by
  refine ⟨fun h10 => ?_, fun h11 => ?_, fun n10 n11 => ?_⟩
  · have e10 : (v.take 3 == vTag10) = true := by
      rw [h10]
      decide
    simp [linuxKeyCandidates, e10]
  · have e10 : (v.take 3 == vTag10) = false := by
      rw [h11]
      decide
    have e11 : (v.take 3 == vTag11) = true := by
      rw [h11]
      decide
    simp [linuxKeyCandidates, e10, e11]
  · have e10 : (v.take 3 == vTag10) = false := by
      simpa using n10
    have e11 : (v.take 3 == vTag11) = false := by
      simpa using n11
    simp [linuxKeyCandidates, e10, e11]

/-- Witness for C7 (amended) at a concrete `v11` value. -/
theorem claim_C7_witness :
    linuxKeyCandidates "kr" (vTag11 ++ [0]) =
      [deriveAes128CbcKeyFromPassword "kr" 1, deriveAes128CbcKeyFromPassword "" 1] :=
  (claim_C7_linux_key_order_amended "kr" (vTag11 ++ [0])).2.1 (by decide)

/-- Counterexample to C7 as stated: for a `v11`-tagged value the Linux
provider tries the keyring-derived key FIRST and never tries the
peanuts-derived key, so the candidate order is not
(peanuts, empty, keyring). -/
theorem claim_C7_counterexample :
    linuxKeyCandidates "keyring-pw" (vTag11 ++ [0]) =
      [deriveAes128CbcKeyFromPassword "keyring-pw" 1,
       deriveAes128CbcKeyFromPassword "" 1] ∧
    linuxKeyCandidates "keyring-pw" (vTag11 ++ [0]) ≠
      [deriveAes128CbcKeyFromPassword "peanuts" 1,
       deriveAes128CbcKeyFromPassword "" 1,
       deriveAes128CbcKeyFromPassword "keyring-pw" 1] ∧
    deriveAes128CbcKeyFromPassword "peanuts" 1 ∉
      linuxKeyCandidates "keyring-pw" (vTag11 ++ [0]) := by
  refine ⟨rfl, by decide, by decide⟩

/-- C1 (amended): failures are recovered at the provider boundary and no
exception reaches the orchestrator, but the warning accompaniment differs by
class — a Firefox profile-not-found yields an empty cookie list plus one
non-fatal warning, while an inline payload that is invalid JSON or lacks the
required shape yields an empty cookie list with an EMPTY warnings list (the
inline provider allocates `warnings` and never pushes to it). -/
theorem claim_C1_provider_error_boundary :
    (∀ (hostnameOf : String → Option String) (parsed : Option JsonValue)
       (origins : List String) (allowlistNames : Option (List String)),
      tryParseCookiePayload parsed = none →
        getCookiesFromInline hostnameOf parsed origins allowlistNames =
          .ok ⟨[], []⟩) ∧
    (∀ runWithDb,
      getCookiesFromFirefoxGuard none runWithDb =
        ⟨[], ["Firefox cookies database not found."]⟩ ∧
      (getCookiesFromFirefoxGuard none runWithDb).warnings ≠ []) := by
  constructor
  · intro hostnameOf parsed origins allowlistNames h
    simp [getCookiesFromInline, h]
  · intro runWithDb
    exact ⟨rfl, by simp [getCookiesFromFirefoxGuard]⟩

/-- Witness for C1 (amended): a shape-mismatched payload (a bare JSON
string) and the missing Firefox profile, both at concrete inputs. -/
theorem claim_C1_witness :
    getCookiesFromInline (fun _ => none) (some (.str "oops")) ["chatgpt.com"] none =
      .ok ⟨[], []⟩ ∧
    getCookiesFromFirefoxGuard none (fun _ => ⟨[], []⟩) =
      ⟨[], ["Firefox cookies database not found."]⟩ :=
  ⟨claim_C1_provider_error_boundary.1 (fun _ => none) (some (.str "oops"))
      ["chatgpt.com"] none rfl,
    (claim_C1_provider_error_boundary.2 (fun _ => ⟨[], []⟩)).1⟩

/-- Counterexample to C1 as stated: an inline payload that is not valid JSON
(`JSON.parse` throws, modelled by `none`) makes `getCookiesFromInline`
return empty cookies with an EMPTY warnings list — not the claimed
non-empty one. -/
theorem claim_C1_counterexample :
    getCookiesFromInline (fun _ => none) none ["chatgpt.com"] none = .ok ⟨[], []⟩ ∧
    (InlineResult.warnings ⟨[], []⟩) = [] := by
  exact ⟨rfl, rfl⟩

/-- `Math.round` of an integer is that integer. -/
theorem jsRound_intCast (t : ℤ) : jsRound (t : ℚ) = t := by
  unfold jsRound
  rw [Int.floor_eq_iff]
  constructor
  · linarith
  · linarith

/-- A positive instant at or below the ms cutoff normalizes on the seconds
path. -/
theorem normalizeExpiration_seconds (t : ℤ) (h0 : 0 < t) (h1 : t ≤ 10000000000) :
    normalizeExpiration (t : ℚ) = some t := by
  have ht : (0 : ℚ) < (t : ℚ) := by exact_mod_cast h0
  have ht1 : ((t : ℚ)) ≤ 10000000000 := by exact_mod_cast h1
  have c0 : ¬((t : ℚ) ≤ 0) := by linarith
  have c1 : ¬((t : ℚ) > 10000000000000) := by linarith
  have c2 : ¬((t : ℚ) > 10000000000) := by linarith
  simp only [normalizeExpiration, if_neg c0, if_neg c1, if_neg c2, jsRound_intCast]

/-- An instant above the ms cutoff (in seconds) normalizes from milliseconds
on the ms path, recovering the same instant. -/
theorem normalizeExpiration_millis (t : ℤ) (h0 : 10000000 < t) (h1 : t ≤ 10000000000) :
    normalizeExpiration ((t : ℚ) * 1000) = some t := by
  have ht : (10000000 : ℚ) < (t : ℚ) := by exact_mod_cast h0
  have ht1 : ((t : ℚ)) ≤ 10000000000 := by exact_mod_cast h1
  have c0 : ¬((t : ℚ) * 1000 ≤ 0) := by nlinarith
  have c1 : ¬((t : ℚ) * 1000 > 10000000000000) := by nlinarith
  have c2 : (t : ℚ) * 1000 > 10000000000 := by nlinarith
  have e : (t : ℚ) * 1000 / 1000 = (t : ℚ) := by
    field_simp
  simp only [normalizeExpiration, if_neg c0, if_neg c1, if_pos c2, e, jsRound_intCast]

/-- Any positive instant encoded as microseconds since 1601 normalizes on the
µs path, recovering the same instant. -/
theorem normalizeExpiration_micros1601 (t : ℤ) (h0 : 0 < t) :
    normalizeExpiration (((t : ℚ) + 11644473600) * 1000000) = some t := by
  have ht : (0 : ℚ) < (t : ℚ) := by exact_mod_cast h0
  have c0 : ¬(((t : ℚ) + 11644473600) * 1000000 ≤ 0) := by nlinarith
  have c1 : ((t : ℚ) + 11644473600) * 1000000 > 10000000000000 := by nlinarith
  have e : ((t : ℚ) + 11644473600) * 1000000 / 1000000 - 11644473600 = (t : ℚ) := by
    field_simp
  simp only [normalizeExpiration, if_neg c0, if_pos c1, e, jsRound_intCast]

/-- C5 (amended): the three supported expiry encodings of one instant —
raw Unix seconds, Unix milliseconds, and microseconds since 1601 — all
normalize to the identical Unix-seconds integer, for instants strictly
between the 10^7 ms-detection cutoff and the 10^10 seconds-path ceiling
(roughly 1970-04-26 through 2286); outside that window the magnitude
heuristic misreads at least one encoding.  A zero or negative raw value
normalizes to no expiry (session cookie). -/
theorem claim_C5_expiry_encodings :
    (∀ t : ℤ, 10000000 < t → t ≤ 10000000000 →
      normalizeExpiration (t : ℚ) = some t ∧
      normalizeExpiration ((t : ℚ) * 1000) = some t ∧
      normalizeExpiration (((t : ℚ) + 11644473600) * 1000000) = some t) ∧
    (∀ q : ℚ, q ≤ 0 → normalizeExpiration q = none) := by
  constructor
  · intro t h0 h1
    exact ⟨normalizeExpiration_seconds t (by omega) h1,
           normalizeExpiration_millis t h0 h1,
           normalizeExpiration_micros1601 t (by omega)⟩
  · intro q hq
    simp [normalizeExpiration, hq]

/-- Witness for C5 (amended) at the instant 1700000000 and the raw value -5. -/
theorem claim_C5_witness :
    normalizeExpiration ((1700000000 : ℤ) : ℚ) = some 1700000000 ∧
    normalizeExpiration (((1700000000 : ℤ) : ℚ) * 1000) = some 1700000000 ∧
    normalizeExpiration ((((1700000000 : ℤ) : ℚ) + 11644473600) * 1000000) =
      some 1700000000 ∧
    normalizeExpiration (-5 : ℚ) = none := by
  obtain ⟨h1, h2, h3⟩ :=
    claim_C5_expiry_encodings.1 1700000000 (by decide) (by decide)
  exact ⟨h1, h2, h3, claim_C5_expiry_encodings.2 (-5) (by norm_num)⟩

/-- Counterexample to C5 as stated: the instant 100 (1970-01-01T00:01:40Z)
encoded as Unix milliseconds (100000) falls below the ms-detection cutoff,
is read as seconds, and normalizes to 100000 — not to the instant's
Unix-seconds value 100. -/
theorem claim_C5_counterexample :
    normalizeExpiration ((100 : ℤ) : ℚ) = some 100 ∧
    normalizeExpiration (((100 : ℤ) : ℚ) * 1000) = some 100000 ∧
    (100000 : ℤ) ≠ 100 := by
  refine ⟨normalizeExpiration_seconds 100 (by norm_num) (by norm_num), ?_, by decide⟩
  have e : ((100 : ℤ) : ℚ) * 1000 = ((100000 : ℤ) : ℚ) := by norm_num
  rw [e]
  exact normalizeExpiration_seconds 100000 (by norm_num) (by norm_num)

/-- The first-seen-wins fold: restricted to one key `k`, folding cookies into
the merged map keeps the key's first occurrence — already-present keys win
over everything folded later. -/
theorem filter_foldl_tryAdd (k : String) (cs : List Cookie) :
    ∀ acc : List Cookie,
      (cs.foldl tryAdd acc).filter (fun c => cookieKey c == k) =
        acc.filter (fun c => cookieKey c == k) ++
          (if (acc.filter (fun c => cookieKey c == k)).isEmpty
           then (cs.filter (fun c => cookieKey c == k)).take 1 else []) := by
  induction cs with
  | nil =>
    intro acc
    split <;> simp
  | cons c cs ih =>
    intro acc
    rw [List.foldl_cons, ih (tryAdd acc c)]
    unfold tryAdd
    by_cases hany : acc.any (fun d => cookieKey d == cookieKey c) = true
    · rw [if_pos hany]
      by_cases hck : cookieKey c = k
      · obtain ⟨d, hd, hdk⟩ := List.any_eq_true.mp hany
        have hdk2 : (cookieKey d == k) = true := by
          simp only [beq_iff_eq] at hdk ⊢
          rw [hdk, hck]
        have hmem : d ∈ acc.filter (fun x => cookieKey x == k) :=
          List.mem_filter.mpr ⟨hd, hdk2⟩
        have hie : (acc.filter (fun x => cookieKey x == k)).isEmpty = false := by
          simpa [List.isEmpty_iff] using List.ne_nil_of_mem hmem
        simp [hie]
      · have : (List.filter (fun c => cookieKey c == k) (c :: cs)) =
            List.filter (fun c => cookieKey c == k) cs := by
          simp [List.filter_cons, hck]
        rw [this]
    · rw [if_neg hany]
      have hnotin : ∀ d ∈ acc, cookieKey d ≠ cookieKey c := by
        intro d hd he
        exact hany (List.any_eq_true.mpr ⟨d, hd, by simp [beq_iff_eq, he]⟩)
      by_cases hck : cookieKey c = k
      · have hnil : acc.filter (fun x => cookieKey x == k) = [] := by
          rw [List.filter_eq_nil_iff]
          intro d hd
          simp [beq_iff_eq]
          rw [← hck]
          exact hnotin d hd
        simp [List.filter_append, hnil, List.filter_cons, hck]
      · have h1 : (acc ++ [c]).filter (fun x => cookieKey x == k) =
            acc.filter (fun x => cookieKey x == k) := by
          simp [List.filter_append, List.filter_cons, hck]
        have h2 : (List.filter (fun c => cookieKey c == k) (c :: cs)) =
            List.filter (fun c => cookieKey c == k) cs := by
          simp [List.filter_cons, hck]
        rw [h1, h2]

/-- The merge-mode cookie accumulator equals one fold of the concatenated
provider cookie lists. -/
theorem getCookiesMerge_cookies_eq (results : List GetCookiesResult) :
    (getCookiesMerge results).cookies =
      ((results.map (·.cookies)).flatten).foldl tryAdd [] := by
  show results.foldl (fun acc r => r.cookies.foldl tryAdd acc) [] = _
  generalize [] = acc
  induction results generalizing acc with
  | nil => simp
  | cons r rest ih => simp [List.foldl_append, ih]

/-- C2: in merge mode, whenever the providers (in configured order)
collectively produce at least two cookies with the same `name|domain|path`
key, the merged result contains exactly one cookie with that key, and it is
the first one produced — i.e. the one from the provider that ran earliest
(first-seen-wins). -/
theorem claim_C2_merge_first_seen_wins (results : List GetCookiesResult) (k : String)
    (hdup : 2 ≤ (((results.map (·.cookies)).flatten).filter
        (fun c => cookieKey c == k)).length) :
    ((getCookiesMerge results).cookies.filter (fun c => cookieKey c == k)).length = 1 ∧
    (getCookiesMerge results).cookies.filter (fun c => cookieKey c == k) =
      (((results.map (·.cookies)).flatten).filter (fun c => cookieKey c == k)).take 1 := by
  have hchar : (getCookiesMerge results).cookies.filter (fun c => cookieKey c == k) =
      (((results.map (·.cookies)).flatten).filter (fun c => cookieKey c == k)).take 1 := by
    rw [getCookiesMerge_cookies_eq, filter_foldl_tryAdd k _ []]
    simp
  refine ⟨?_, hchar⟩
  rw [hchar, List.length_take]
  omega

/-- Witness for C2: two providers each yield a cookie with key `sid|a.com|/`;
the merge keeps exactly the first provider's record. -/
theorem claim_C2_witness :
    ((getCookiesMerge
        [⟨[{ name := "sid", value := "first", domain := some "a.com",
             path := some "/" }], []⟩,
         ⟨[{ name := "sid", value := "second", domain := some "a.com",
             path := some "/" }], []⟩]).cookies.filter
      (fun c => cookieKey c == "sid|a.com|/")).length = 1 ∧
    (getCookiesMerge
        [⟨[{ name := "sid", value := "first", domain := some "a.com",
             path := some "/" }], []⟩,
         ⟨[{ name := "sid", value := "second", domain := some "a.com",
             path := some "/" }], []⟩]).cookies.filter
      (fun c => cookieKey c == "sid|a.com|/") =
      (((([⟨[{ name := "sid", value := "first", domain := some "a.com",
               path := some "/" }], []⟩,
           ⟨[{ name := "sid", value := "second", domain := some "a.com",
               path := some "/" }], []⟩] :
          List GetCookiesResult).map (·.cookies)).flatten).filter
        (fun c => cookieKey c == "sid|a.com|/")).take 1 :=
  claim_C2_merge_first_seen_wins _ "sid|a.com|/" (by decide)

/-- C3: in first mode, when provider `i` is the first (in configured order)
to yield at least one cookie, the loop returns that provider's cookies,
invokes exactly the first `i + 1` providers — none after it — and the
returned warnings are the initial warnings followed by the warnings of every
provider invoked up to that point, in order. -/
theorem claim_C3_first_mode (results : List GetCookiesResult) (warnAcc : List String)
    (i : Nat) (hi : i < results.length)
    (hbefore : ∀ r ∈ results.take i, r.cookies = [])
    (hne : (results.get ⟨i, hi⟩).cookies ≠ []) :
    getCookiesFirst results warnAcc =
      (⟨(results.get ⟨i, hi⟩).cookies,
        warnAcc ++ ((results.take (i+1)).map (·.warnings)).flatten⟩, i + 1) := by
  induction results generalizing warnAcc i with
  | nil => simp at hi
  | cons r rest ih =>
    cases i with
    | zero =>
      have hr : r.cookies.isEmpty = false := by
        simpa [List.isEmpty_iff] using hne
      simp [getCookiesFirst, hr]
    | succ j =>
      have hr : r.cookies = [] := hbefore r (by simp [List.take_succ_cons])
      have hre : r.cookies.isEmpty = true := by simp [hr]
      have hj : j < rest.length := by simpa using hi
      have hb : ∀ x ∈ rest.take j, x.cookies = [] := by
        intro x hx
        exact hbefore x (by simp [List.take_succ_cons, hx])
      have hn : (rest.get ⟨j, hj⟩).cookies ≠ [] := by simpa using hne
      simp only [getCookiesFirst, hre, if_pos]
      rw [ih (warnAcc ++ r.warnings) j hj hb hn]
      simp [List.take_succ_cons, List.append_assoc]

/-- Witness for C3: three providers where the second is the first to yield a
cookie — the loop stops after two invocations, skipping the third, and
collects the first two providers' warnings. -/
theorem claim_C3_witness :
    getCookiesFirst
        [⟨[], ["w0"]⟩,
         ⟨[{ name := "sid", value := "x" }], ["w1"]⟩,
         ⟨[{ name := "other", value := "y" }], ["w2"]⟩] [] =
      (⟨[{ name := "sid", value := "x" }], ["w0", "w1"]⟩, 2) := by
  simpa using claim_C3_first_mode
    [⟨[], ["w0"]⟩,
     ⟨[{ name := "sid", value := "x" }], ["w1"]⟩,
     ⟨[{ name := "other", value := "y" }], ["w2"]⟩] [] 1
    (by decide) (by decide) (by decide)

/-- Proper PKCS#7 padding (pad byte between 1 and 16) is removed exactly. -/
theorem removePkcs7Padding_append_replicate (m : List Nat) (q : Nat) (h : q + 1 ≤ 16) :
    removePkcs7Padding (m ++ List.replicate (q + 1) (q + 1)) = m := by
  unfold removePkcs7Padding
  have hrep : List.replicate (q + 1) (q + 1) = List.replicate q (q + 1) ++ [q + 1] :=
    List.replicate_succ' q (q + 1)
  have hlast : (m ++ List.replicate (q + 1) (q + 1)).getLast? = some (q + 1) := by
    rw [hrep, ← List.append_assoc]
    exact List.getLast?_concat _
  rw [hlast]
  have hcond : ((q + 1 : Nat) == 0 || decide ((q + 1 : Nat) > 16)) = false := by
    simp
    omega
  simp only [hcond, Bool.false_eq_true, if_false]
  have hsub : (m ++ List.replicate (q + 1) (q + 1)).length - (q + 1) = m.length := by
    simp
  rw [hsub]
  exact List.take_left' rfl

/-- `removePkcs7Padding` inverts `pkcs7Pad`. -/
theorem removePkcs7Padding_pkcs7Pad (m : List Nat) :
    removePkcs7Padding (pkcs7Pad m) = m := by
  unfold pkcs7Pad
  obtain ⟨q, hq⟩ : ∃ q, 16 - m.length % 16 = q + 1 := ⟨15 - m.length % 16, by omega⟩
  rw [hq]
  exact removePkcs7Padding_append_replicate m q (by omega)

/-- Dropping leading control characters is the identity when the first byte
(if any) is not a control character. -/
theorem stripLeadingControlChars_eq_self (v : List Nat)
    (h : ∀ b, v.head? = some b → 32 ≤ b) :
    stripLeadingControlChars v = v := by
  unfold stripLeadingControlChars
  cases v with
  | nil => rfl
  | cons b t =>
    have hb : ¬(b < 32) := by
      have := h b rfl
      omega
    simp [List.dropWhile_cons, hb]

/-- Decoding without the hash strip returns valid non-control-leading bytes
unchanged. -/
theorem decodeCookieValueBytes_id (v : List Nat) (hvalid : isValidUtf8 v = true)
    (hlead : ∀ b, v.head? = some b → 32 ≤ b) :
    decodeCookieValueBytes v false = some v := by
  simp [decodeCookieValueBytes, hvalid, stripLeadingControlChars_eq_self v hlead]

/-- Decoding with the hash strip removes exactly a 32-byte prepended hash. -/
theorem decodeCookieValueBytes_strip (hash v : List Nat) (hhash : hash.length = 32)
    (hvalid : isValidUtf8 v = true) (hlead : ∀ b, v.head? = some b → 32 ≤ b) :
    decodeCookieValueBytes (hash ++ v) true = some v := by
  have hge : 32 ≤ hash.length + v.length := by
    rw [hhash]
    omega
  have hdrop : (hash ++ v).drop 32 = v := List.drop_left' hhash
  simp [decodeCookieValueBytes, hge, hdrop, hvalid,
        stripLeadingControlChars_eq_self v hlead]

/-- C4 (amended): encrypting a plaintext under the AES-128-CBC scheme (fixed
IV CBC abstracted as an inverse pair, PKCS#7 padding, version tag) and
decrypting with `decryptChromiumAes128CbcCookieValue`, or under the
AES-256-GCM scheme (12-byte nonce, ciphertext, 16-byte auth tag, version
tag) and decrypting with `decryptChromiumAes256GcmCookieValue`, recovers the
original plaintext — with `stripHash := false`, and with `stripHash := true`
when a 32-byte hash is prepended before encryption — PROVIDED the plaintext
bytes are valid UTF-8 and do not begin with a byte below 0x20 (the decryptor
strips leading control characters, so such plaintexts do not round-trip). -/
theorem claim_C4_roundtrip (aesEnc aesDec : List Nat → List Nat)
    (hinv : ∀ m, aesDec (aesEnc m) = m)
    (hlen : ∀ m, (aesEnc m).length = m.length)
    (gcmEnc : List Nat → List Nat → List Nat × List Nat)
    (gcmDec : List Nat → List Nat → List Nat → Option (List Nat))
    (hgcmInv : ∀ n p, gcmDec n (gcmEnc n p).1 (gcmEnc n p).2 = some p)
    (hgcmCt : ∀ n p, (gcmEnc n p).1.length = p.length)
    (hgcmTag : ∀ n p, (gcmEnc n p).2.length = 16)
    (tag : List Nat) (htag : hasVersionTag tag = true) (htag3 : tag.length = 3)
    (nonce : List Nat) (hnonce : nonce.length = 12)
    (plain hash : List Nat) (hhash : hash.length = 32)
    (hvalid : isValidUtf8 plain = true)
    (hlead : ∀ b, plain.head? = some b → 32 ≤ b) (tPl : Bool) :
    decryptChromiumAes128CbcCookieValue (fun (_ : Unit) => aesDec)
        (encryptChromiumAes128Cbc aesEnc tag plain) [()] false tPl = some plain ∧
    decryptChromiumAes128CbcCookieValue (fun (_ : Unit) => aesDec)
        (encryptChromiumAes128Cbc aesEnc tag (hash ++ plain)) [()] true tPl =
      some plain ∧
    decryptChromiumAes256GcmCookieValue gcmDec
        (encryptChromiumAes256Gcm gcmEnc tag nonce plain) false = some plain ∧
    decryptChromiumAes256GcmCookieValue gcmDec
        (encryptChromiumAes256Gcm gcmEnc tag nonce (hash ++ plain)) true =
      some plain := by
  obtain ⟨a, b, c, rfl⟩ := List.length_eq_three.mp htag3
  have hcbc : ∀ (M : List Nat) (s : Bool),
      decodeCookieValueBytes M s = some plain →
      decryptChromiumAes128CbcCookieValue (fun (_ : Unit) => aesDec)
        (encryptChromiumAes128Cbc aesEnc [a, b, c] M) [()] s tPl = some plain := by
    intro M s hdec
    have hbuf : encryptChromiumAes128Cbc aesEnc [a, b, c] M =
        a :: b :: c :: aesEnc (pkcs7Pad M) := rfl
    rw [hbuf]
    unfold decryptChromiumAes128CbcCookieValue
    have hlenbuf : ¬((a :: b :: c :: aesEnc (pkcs7Pad M)).length < 3) := by
      simp
    rw [if_neg hlenbuf]
    have htag2 : hasVersionTag (a :: b :: c :: aesEnc (pkcs7Pad M)) = true := htag
    rw [htag2]
    simp only [Bool.not_true, Bool.false_eq_true, if_false]
    have hdrop : (a :: b :: c :: aesEnc (pkcs7Pad M)).drop 3 = aesEnc (pkcs7Pad M) := rfl
    rw [hdrop]
    have hpadlen : (pkcs7Pad M).length = M.length + (16 - M.length % 16) := by
      simp [pkcs7Pad]
    have hne : ¬((aesEnc (pkcs7Pad M)).isEmpty = true) := by
      rw [List.isEmpty_iff]
      intro h
      have := hlen (pkcs7Pad M)
      rw [h] at this
      simp at this
      omega
    rw [if_neg hne]
    unfold tryKeyCandidates tryDecryptAes128Cbc
    have hmod : ((aesEnc (pkcs7Pad M)).length % 16 == 0) = true := by
      rw [hlen, hpadlen]
      simp
      omega
    rw [hmod]
    simp only [if_true]
    rw [hinv, removePkcs7Padding_pkcs7Pad, hdec]
  have hgcm : ∀ (M : List Nat) (s : Bool),
      decodeCookieValueBytes M s = some plain →
      decryptChromiumAes256GcmCookieValue gcmDec
        (encryptChromiumAes256Gcm gcmEnc [a, b, c] nonce M) s = some plain := by
    intro M s hdec
    set ct := (gcmEnc nonce M).1 with hct
    set tg := (gcmEnc nonce M).2 with htg
    have hctlen : ct.length = M.length := hgcmCt nonce M
    have htglen : tg.length = 16 := hgcmTag nonce M
    have hbuf : encryptChromiumAes256Gcm gcmEnc [a, b, c] nonce M =
        a :: b :: c :: (nonce ++ (ct ++ tg)) := by
      simp [encryptChromiumAes256Gcm, List.append_assoc]
    rw [hbuf]
    unfold decryptChromiumAes256GcmCookieValue
    have hlenbuf : ¬((a :: b :: c :: (nonce ++ (ct ++ tg))).length < 3) := by
      simp
    rw [if_neg hlenbuf]
    have htag2 : hasVersionTag (a :: b :: c :: (nonce ++ (ct ++ tg))) = true := htag
    rw [htag2]
    simp only [Bool.not_true, Bool.false_eq_true, if_false]
    have hdrop : (a :: b :: c :: (nonce ++ (ct ++ tg))).drop 3 = nonce ++ (ct ++ tg) := rfl
    rw [hdrop]
    have hplen : (nonce ++ (ct ++ tg)).length = 28 + M.length := by
      simp [hnonce, hctlen, htglen]
      omega
    have hge : ¬((nonce ++ (ct ++ tg)).length < 12 + 16) := by
      rw [hplen]
      omega
    rw [if_neg hge]
    have htake : (nonce ++ (ct ++ tg)).take 12 = nonce := List.take_left' hnonce
    have hdrop16 : (nonce ++ (ct ++ tg)).drop ((nonce ++ (ct ++ tg)).length - 16) = tg := by
      rw [show nonce ++ (ct ++ tg) = (nonce ++ ct) ++ tg from (List.append_assoc _ _ _).symm]
      apply List.drop_left'
      simp only [List.length_append]
      rw [hnonce, hctlen, htglen]
      omega
    have hdrop12 : ((nonce ++ (ct ++ tg)).drop 12).take
        ((nonce ++ (ct ++ tg)).length - 28) = ct := by
      rw [List.drop_left' hnonce, hplen]
      have h28 : 28 + M.length - 28 = ct.length := by
        omega
      rw [h28]
      exact List.take_left' rfl
    rw [htake, hdrop16, hdrop12, hgcmInv nonce M]
    simp only [hdec]
  exact ⟨hcbc plain false (decodeCookieValueBytes_id plain hvalid hlead),
         hcbc (hash ++ plain) true
           (decodeCookieValueBytes_strip hash plain hhash hvalid hlead),
         hgcm plain false (decodeCookieValueBytes_id plain hvalid hlead),
         hgcm (hash ++ plain) true
           (decodeCookieValueBytes_strip hash plain hhash hvalid hlead)⟩

/-- Witness for C4 (amended): concrete round trips for the plaintext `ok`
(bytes 111, 107), under an identity block-cipher pair and a trivial AEAD
pair — both satisfying the cipher laws the theorem assumes — with and
without a 32-byte hash. -/
theorem claim_C4_witness :
    decryptChromiumAes128CbcCookieValue (fun (_ : Unit) => (fun v => v))
        (encryptChromiumAes128Cbc (fun v => v) [118, 49, 48] [111, 107]) [()]
        false false = some [111, 107] ∧
    decryptChromiumAes128CbcCookieValue (fun (_ : Unit) => (fun v => v))
        (encryptChromiumAes128Cbc (fun v => v) [118, 49, 48]
          (List.replicate 32 255 ++ [111, 107])) [()] true false =
      some [111, 107] ∧
    decryptChromiumAes256GcmCookieValue
        (fun _ c t => if t == List.replicate 16 0 then some c else none)
        (encryptChromiumAes256Gcm (fun _ p => (p, List.replicate 16 0)) [118, 49, 48]
          (List.replicate 12 9) [111, 107]) false = some [111, 107] ∧
    decryptChromiumAes256GcmCookieValue
        (fun _ c t => if t == List.replicate 16 0 then some c else none)
        (encryptChromiumAes256Gcm (fun _ p => (p, List.replicate 16 0)) [118, 49, 48]
          (List.replicate 12 9) (List.replicate 32 255 ++ [111, 107])) true =
      some [111, 107] :=
  claim_C4_roundtrip (fun v => v) (fun v => v) (fun _ => rfl) (fun _ => rfl)
    (fun _ p => (p, List.replicate 16 0))
    (fun _ c t => if t == List.replicate 16 0 then some c else none)
    (by intro n p; simp) (fun _ _ => rfl) (by intro n p; simp)
    [118, 49, 48] (by decide) (by decide)
    (List.replicate 12 9) (by decide)
    [111, 107] (List.replicate 32 255) (by decide)
    (by decide) (by intro b hb; injection hb with h; omega) false

/-- Counterexample to C4 as stated ("for every plaintext"): under an identity
block-cipher pair — which satisfies every cipher law the scheme assumes —
the one-byte plaintext 0x01 encrypts under the AES-128-CBC scheme and then
decrypts to the empty string, because `decryptChromiumAes128CbcCookieValue`
strips leading bytes below 0x20 from the decoded plaintext. -/
theorem claim_C4_counterexample :
    decryptChromiumAes128CbcCookieValue (fun (_ : Unit) => (fun v => v))
        (encryptChromiumAes128Cbc (fun v => v) [118, 49, 48] [1]) [()] false false =
      some [] ∧
    some ([] : List Nat) ≠ some [1] := by
  exact ⟨by decide, by decide⟩

end SweetCookie
